import Mathlib

/-!
Verification of the geometric-kernel specification of the `solvespace-import`
repository against its code.

The repository ships `srf/surface.h` (class declarations of the Bezier
curve/surface kernel, with documentation comments) and
`src/render/rendergl2.cpp` (the OpenGL 2 rendering backend, whose
`TextureCache` is fully implemented there).  The kernel's member-function
bodies are not part of the repository, so the kernel operations are modelled
from the specification, faithfully to its wording, and the declarations and
comments of `srf/surface.h`.  Floating-point `double` arithmetic is embedded
as exact rational arithmetic `ℚ`; the claims under study are algebraic, not
rounding-specific.

C++ mutation is embedded by explicit state passing: a `void` member function
becomes a function returning the receiver's new state, a `const`-reading
member function returning a value by C++ value semantics becomes a pure
function, and out-parameters become components of the returned value.
-/

set_option autoImplicit false

namespace SolveSpaceImport

/-- The 3-vector of the kernel (`Vector` in the C++ sources); `double`
components are embedded as `ℚ`. -/
structure Vector where
  x : ℚ
  y : ℚ
  z : ℚ
  deriving DecidableEq, Repr

attribute [ext] Vector

namespace Vector

/-- Componentwise sum, `Vector::Plus`. -/
def Plus (a b : Vector) : Vector := ⟨a.x + b.x, a.y + b.y, a.z + b.z⟩

/-- Componentwise difference, `Vector::Minus`. -/
def Minus (a b : Vector) : Vector := ⟨a.x - b.x, a.y - b.y, a.z - b.z⟩

/-- Scalar multiple, `Vector::ScaledBy`. -/
def ScaledBy (a : Vector) (s : ℚ) : Vector := ⟨a.x * s, a.y * s, a.z * s⟩

/-- Dot product, `Vector::Dot`. -/
def Dot (a b : Vector) : ℚ := a.x * b.x + a.y * b.y + a.z * b.z

/-- Cross product, `Vector::Cross`. -/
def Cross (a b : Vector) : Vector :=
  ⟨a.y * b.z - a.z * b.y, a.z * b.x - a.x * b.z, a.x * b.y - a.y * b.x⟩

/-- Squared Euclidean magnitude.  The kernel compares distances against a
tolerance; squaring both sides keeps the comparison inside `ℚ`. -/
def MagSquared (a : Vector) : ℚ := a.x * a.x + a.y * a.y + a.z * a.z

end Vector

/-- Rotation quaternion (`Quaternion` in the C++ sources). -/
structure Quat where
  w : ℚ
  vx : ℚ
  vy : ℚ
  vz : ℚ
  deriving DecidableEq, Repr

namespace Quat

/-- The vector part of a quaternion. -/
def vec (q : Quat) : Vector := ⟨q.vx, q.vy, q.vz⟩

/-- Modelled from the spec: `Quaternion::Rotate` (the rotation applied by
`TransformedBy`, §4.1 "applies a rigid transform (translation + rotation) to
every control point") is absent from the repository; it is the standard
rotation of a vector by a unit quaternion,
`v + 2w(u×v) + 2u×(u×v)` with `u` the vector part. -/
def Rotate (q : Quat) (v : Vector) : Vector :=
  let t := q.vec.Cross v
  (v.Plus (t.ScaledBy (2 * q.w))).Plus ((q.vec.Cross t).ScaledBy 2)

end Quat

/-- Modelled from the spec: `double Bernstein(int k, int deg, double t)` is
declared in `srf/surface.h` ("Bernstein polynomials of order 1-3") but its
body is absent; this is the standard Bernstein basis polynomial
`C(deg,k) · t^k · (1−t)^(deg−k)` named by §4.1's "weighted Bernstein-basis
combination". -/
def Bernstein (k deg : ℕ) (t : ℚ) : ℚ :=
  (Nat.choose deg k : ℚ) * t ^ k * (1 - t) ^ (deg - k)

/-- Modelled from the spec: `double BernsteinDerivative(int k, int deg,
double t)` is declared in `srf/surface.h` but its body is absent; this is the
`t`-derivative of `Bernstein k deg`. -/
def BernsteinDerivative (k deg : ℕ) (t : ℚ) : ℚ :=
  (k : ℚ) * (Nat.choose deg k : ℚ) * t ^ (k - 1) * (1 - t) ^ (deg - k)
    - ((deg - k : ℕ) : ℚ) * (Nat.choose deg k : ℚ) * t ^ k * (1 - t) ^ (deg - k - 1)

/-- The rational Bezier curve `SBezier` of `srf/surface.h`: a degree, four
control-point slots and four weight slots (the C++ fixed arrays `ctrl[4]`,
`weight[4]`; slots of index greater than `deg` are present but unused). -/
structure SBezier where
  tag : ℤ
  deg : ℕ
  ctrl : Fin 4 → Vector
  weight : Fin 4 → ℚ

namespace SBezier

/-- The coefficient of control point `k` in the rational evaluation at `t`:
`weight[k] · B_{k,deg}(t)` for the valid slots `k ≤ deg`, and `0` for the
unused slots. -/
def basisCoeff (b : SBezier) (k : Fin 4) (t : ℚ) : ℚ :=
  if k.val ≤ b.deg then b.weight k * Bernstein k.val b.deg t else 0

/-- The denominator of the rational evaluation: the weighted sum of the
Bernstein values over the valid control slots. -/
def denomAt (b : SBezier) (t : ℚ) : ℚ :=
  b.basisCoeff 0 t + b.basisCoeff 1 t + b.basisCoeff 2 t + b.basisCoeff 3 t

/-- The numerator of the rational evaluation: the weighted Bernstein
combination of the control points. -/
def numerAt (b : SBezier) (t : ℚ) : Vector :=
  ((((b.ctrl 0).ScaledBy (b.basisCoeff 0 t)).Plus
    ((b.ctrl 1).ScaledBy (b.basisCoeff 1 t))).Plus
    ((b.ctrl 2).ScaledBy (b.basisCoeff 2 t))).Plus
    ((b.ctrl 3).ScaledBy (b.basisCoeff 3 t))

/-- Modelled from the spec: `SBezier::PointAt` is declared in
`srf/surface.h:30` but its body is absent; §4.1 specifies "position as the
weighted Bernstein-basis combination of control points divided by the
weighted sum of Bernstein weights". -/
def PointAt (b : SBezier) (t : ℚ) : Vector :=
  (b.numerAt t).ScaledBy (1 / b.denomAt t)

/-- Modelled from the spec: `SBezier::PointAt` guarded by §4.1's precondition
"degree 0 ≤ d ≤ 3 only — higher degree is a fatal precondition violation"
(§7: fatal, aborts the operation immediately).  The abort returns no value,
hence `none`. -/
def PointAtChecked (b : SBezier) (t : ℚ) : Option Vector :=
  if b.deg ≤ 3 then some (b.PointAt t) else none

/-- Modelled from the spec: `SBezier::Start` (`srf/surface.h:31`, body
absent), the curve's start point `ctrl[0]`. -/
def Start (b : SBezier) : Vector := b.ctrl 0

/-- Modelled from the spec: `SBezier::Finish` (`srf/surface.h:32`, body
absent), the curve's finish point `ctrl[deg]` (index clamped into the
4-slot array; under the degree precondition no clamping occurs). -/
def Finish (b : SBezier) : Vector := b.ctrl ⟨min b.deg 3, by omega⟩

/-- The index permutation reversing the valid control slots `0..deg` of a
curve of degree `deg` and fixing the unused slots. -/
def revIndex (deg : ℕ) (i : Fin 4) : Fin 4 :=
  if h : i.val ≤ deg ∧ deg - i.val < 4 then ⟨deg - i.val, h.2⟩ else i

/-- Modelled from the spec: `void SBezier::Reverse(void)` is declared in
`srf/surface.h:37` but its body is absent; §4.1 specifies "control points
and weights reversed in order".  The declaration returns `void`, so it is an
in-place update of the receiver; the embedding returns the receiver's new
state. -/
def Reverse (b : SBezier) : SBezier :=
  { b with
    ctrl := fun i => b.ctrl (revIndex b.deg i)
    weight := fun i => b.weight (revIndex b.deg i) }

/-- Modelled from the spec: `SBezier SBezier::TransformedBy(Vector t,
Quaternion q)` is declared in `srf/surface.h:39` but its body is absent;
§4.1 specifies "applies a rigid transform (translation + rotation) to every
control point, leaving weights unchanged".  The result is returned by C++
value semantics; the receiver is only read. -/
def TransformedBy (b : SBezier) (t : Vector) (q : Quat) : SBezier :=
  { b with
    ctrl := fun i => if i.val ≤ b.deg then (q.Rotate (b.ctrl i)).Plus t else b.ctrl i }

/-- Modelled from the spec: `SBezier::MakePwlWorker` (`srf/surface.h:35`,
body absent); §4.1 specifies "it recursively bisects the parameter interval,
comparing the midpoint of the chord to the true curve point, and stops
subdividing once the deviation is below a fixed flatness tolerance
(chord-error test)", appending the finish point of each flat-enough
interval.  The deviation test compares squared distance against the squared
tolerance `tolSq`; `fuel` bounds the recursion depth (§4.1: the flattening
is finite), with an exhausted interval emitted unsubdivided. -/
def MakePwlWorker (b : SBezier) (tolSq : ℚ) :
    ℕ → ℚ → ℚ → List Vector → List Vector
  | 0, _, tb, l => l ++ [b.PointAt tb]
  | fuel + 1, ta, tb, l =>
    let pa := b.PointAt ta
    let pb := b.PointAt tb
    let pm := (pa.Plus pb).ScaledBy (1 / 2)
    let tm := (ta + tb) / 2
    let pt := b.PointAt tm
    if (pm.Minus pt).MagSquared < tolSq then
      l ++ [pb]
    else
      b.MakePwlWorker tolSq fuel tm tb (b.MakePwlWorker tolSq fuel ta tm l)

/-- Modelled from the spec: `void SBezier::MakePwlInto(List<Vector> *l)`
(`srf/surface.h:33`, body absent); it appends the flattening of the whole
parameter interval to the output list `l`, starting with the curve's start
point.  The receiver is only read; the out-list is the returned value. -/
def MakePwlInto (b : SBezier) (tolSq : ℚ) (fuel : ℕ) (l : List Vector) :
    List Vector :=
  b.MakePwlWorker tolSq fuel 0 1 (l ++ [b.Start])

/-- The receiver/return pair of a call `b.TransformedBy(t, q)`: first
component the receiver's state after the call, second the returned curve. -/
def transformedByCall (b : SBezier) (t : Vector) (q : Quat) :
    SBezier × SBezier :=
  (b, b.TransformedBy t q)

/-- The receiver/out-list pair of a call `b.MakePwlInto(&l)`: first
component the receiver's state after the call, second the out-list. -/
def makePwlIntoCall (b : SBezier) (tolSq : ℚ) (fuel : ℕ) (l : List Vector) :
    SBezier × List Vector :=
  (b, b.MakePwlInto tolSq fuel l)

end SBezier

/-- The piecewise-linear trim curve `SCurve` of `srf/surface.h`: a handle, an
optional exact Bezier form, and the stored polyline of points. -/
structure SCurve where
  h : ℕ
  isExact : Bool
  exact : SBezier
  pts : List Vector

namespace SCurve

/-- Modelled from the spec: `SCurve::FromTransformationOf`
(`srf/surface.h:87`, body absent); the rigid transform of §4.1 applied to
the exact form and to every stored polyline point. -/
def FromTransformationOf (a : SCurve) (t : Vector) (q : Quat) : SCurve :=
  { a with
    exact := a.exact.TransformedBy t q
    pts := a.pts.map fun p => (q.Rotate p).Plus t }

end SCurve

/-- The trim segment `STrimBy` of `srf/surface.h`: a curve handle, the
direction flag, and the cached start and finish points. -/
structure STrimBy where
  curve : ℕ
  backwards : Bool
  start : Vector
  finish : Vector
  deriving DecidableEq, Repr

/-- The rational Bezier surface patch `SSurface` of `srf/surface.h`: a
handle, color and face tags, the two degrees, the fixed `4×4` control-point
and weight grids (slots beyond the degrees are present but unused), and the
trim list. -/
structure SSurface where
  h : ℕ
  color : ℤ
  face : ℕ
  degm : ℕ
  degn : ℕ
  ctrl : Fin 4 → Fin 4 → Vector
  weight : Fin 4 → Fin 4 → ℚ
  trim : List STrimBy

namespace SSurface

/-- The coefficient of control point `(i,j)` in the tensor-product rational
evaluation at `(u,v)`, zero on the unused slots. -/
def basisCoeff (s : SSurface) (i j : Fin 4) (u v : ℚ) : ℚ :=
  if i.val ≤ s.degm ∧ j.val ≤ s.degn then
    s.weight i j * Bernstein i.val s.degm u * Bernstein j.val s.degn v
  else 0

/-- The `u`-derivative of `basisCoeff`. -/
def basisCoeffU (s : SSurface) (i j : Fin 4) (u v : ℚ) : ℚ :=
  if i.val ≤ s.degm ∧ j.val ≤ s.degn then
    s.weight i j * BernsteinDerivative i.val s.degm u * Bernstein j.val s.degn v
  else 0

/-- The `v`-derivative of `basisCoeff`. -/
def basisCoeffV (s : SSurface) (i j : Fin 4) (u v : ℚ) : ℚ :=
  if i.val ≤ s.degm ∧ j.val ≤ s.degn then
    s.weight i j * Bernstein i.val s.degm u * BernsteinDerivative j.val s.degn v
  else 0

/-- The denominator of the rational tensor-product evaluation. -/
def denomAt (s : SSurface) (u v : ℚ) : ℚ :=
  ∑ i : Fin 4, ∑ j : Fin 4, s.basisCoeff i j u v

/-- The numerator of the rational tensor-product evaluation. -/
def numerAt (s : SSurface) (u v : ℚ) : Vector :=
  ⟨∑ i : Fin 4, ∑ j : Fin 4, s.basisCoeff i j u v * (s.ctrl i j).x,
   ∑ i : Fin 4, ∑ j : Fin 4, s.basisCoeff i j u v * (s.ctrl i j).y,
   ∑ i : Fin 4, ∑ j : Fin 4, s.basisCoeff i j u v * (s.ctrl i j).z⟩

/-- Modelled from the spec: `SSurface::PointAt` (`srf/surface.h:130`, body
absent); §4.2 specifies the "analogous tensor-product evaluation over
`(u,v)` using two independent Bernstein-basis expansions, again rational
(weighted)". -/
def PointAt (s : SSurface) (u v : ℚ) : Vector :=
  (s.numerAt u v).ScaledBy (1 / s.denomAt u v)

/-- Modelled from the spec: `SSurface::TangentsAt` (`srf/surface.h:131`,
body absent); §4.2 specifies that it "returns the two partial derivatives"
(out-parameters `tu`, `tv` become the returned pair).  Each partial is the
quotient-rule derivative of `numerAt / denomAt`. -/
def TangentsAt (s : SSurface) (u v : ℚ) : Vector × Vector :=
  let den := s.denomAt u v
  let num := s.numerAt u v
  let denU := ∑ i : Fin 4, ∑ j : Fin 4, s.basisCoeffU i j u v
  let denV := ∑ i : Fin 4, ∑ j : Fin 4, s.basisCoeffV i j u v
  let numU : Vector :=
    ⟨∑ i : Fin 4, ∑ j : Fin 4, s.basisCoeffU i j u v * (s.ctrl i j).x,
     ∑ i : Fin 4, ∑ j : Fin 4, s.basisCoeffU i j u v * (s.ctrl i j).y,
     ∑ i : Fin 4, ∑ j : Fin 4, s.basisCoeffU i j u v * (s.ctrl i j).z⟩
  let numV : Vector :=
    ⟨∑ i : Fin 4, ∑ j : Fin 4, s.basisCoeffV i j u v * (s.ctrl i j).x,
     ∑ i : Fin 4, ∑ j : Fin 4, s.basisCoeffV i j u v * (s.ctrl i j).y,
     ∑ i : Fin 4, ∑ j : Fin 4, s.basisCoeffV i j u v * (s.ctrl i j).z⟩
  (((numU.ScaledBy den).Minus (num.ScaledBy denU)).ScaledBy (1 / (den * den)),
   ((numV.ScaledBy den).Minus (num.ScaledBy denV)).ScaledBy (1 / (den * den)))

/-- The valid control slots of the surface's grid. -/
def validSlots (s : SSurface) : List (Fin 4 × Fin 4) :=
  ((List.finRange 4).flatMap fun i => (List.finRange 4).map fun j => (i, j)).filter
    fun ij => decide (ij.1.val ≤ s.degm ∧ ij.2.val ≤ s.degn)

/-- Modelled from the spec: the initial guess of `ClosestPointTo`, §4.2
"from an initial guess, e.g., nearest control point": the parameter-space
position of the valid control slot nearest to `p`. -/
def initialGuess (s : SSurface) (p : Vector) : ℚ × ℚ :=
  let best := s.validSlots.foldl
    (fun best ij =>
      if ((s.ctrl ij.1 ij.2).Minus p).MagSquared
          < ((s.ctrl best.1 best.2).Minus p).MagSquared then ij else best)
    (0, 0)
  ((best.1.val : ℚ) / (s.degm : ℚ), (best.2.val : ℚ) / (s.degn : ℚ))

/-- Modelled from the spec: one "Newton-style iterative refinement" step of
`ClosestPointTo` (§4.2): the residual `p − S(u,v)` is projected on the two
tangents to give the parameter correction. -/
def closestStep (s : SSurface) (p : Vector) (u v : ℚ) : ℚ × ℚ :=
  let q := s.PointAt u v
  let tuv := s.TangentsAt u v
  let d := p.Minus q
  (d.Dot tuv.1 / (tuv.1.Dot tuv.1), d.Dot tuv.2 / (tuv.2.Dot tuv.2))

/-- Modelled from the spec: the refinement loop of `ClosestPointTo`.  Each
branch yields `Except.ok`: convergence (correction below the squared
tolerance `tolSq`) returns the refined parameters, and exhaustion of the
iteration budget returns the current iterate — §7 "returns a best-effort
approximate result rather than failing". -/
def closestPointIter (s : SSurface) (p : Vector) (tolSq : ℚ) :
    ℕ → ℚ → ℚ → Except Unit (ℚ × ℚ)
  | 0, u, v => .ok (u, v)
  | fuel + 1, u, v =>
    let duv := s.closestStep p u v
    if duv.1 * duv.1 + duv.2 * duv.2 < tolSq then .ok (u + duv.1, v + duv.2)
    else s.closestPointIter p tolSq fuel (u + duv.1) (v + duv.2)

/-- Modelled from the spec: `void SSurface::ClosestPointTo(Vector p, double
*u, double *v)` (`srf/surface.h:129`, body absent); §4.2 "solves a local
minimization (Newton-style iterative refinement from an initial guess, e.g.,
nearest control point)".  The out-parameters `u`, `v` are the components of
the `Except.ok` payload; the `Except` layer is the operation's potential
failure channel, which the claim under study asserts is never used.  The
convergence threshold and iteration budget are parameters, since §9 leaves
the concrete values unspecified. -/
def ClosestPointTo (s : SSurface) (p : Vector) (tolSq : ℚ) (fuel : ℕ) :
    Except Unit (ℚ × ℚ) :=
  let g := s.initialGuess p
  s.closestPointIter p tolSq fuel g.1 g.2

/-- Modelled from the spec: `SSurface::FromTransformationOf`
(`srf/surface.h:126`, body absent); the rigid transform applied to every
valid control point, weights unchanged (§4.1/§4.2); the trims are carried
over (with transformed cached endpoints) only when `includingTrims`. -/
def FromTransformationOf (a : SSurface) (t : Vector) (q : Quat)
    (includingTrims : Bool) : SSurface :=
  { a with
    ctrl := fun i j =>
      if i.val ≤ a.degm ∧ j.val ≤ a.degn then (q.Rotate (a.ctrl i j)).Plus t
      else a.ctrl i j
    trim :=
      if includingTrims then
        a.trim.map fun st =>
          { st with
            start := (q.Rotate st.start).Plus t
            finish := (q.Rotate st.finish).Plus t }
      else [] }

end SSurface

/-- The shell `SShell` of `srf/surface.h`: the owned collection of curves
and of surfaces (the C++ `IdList`s, each entry carrying its handle in its
`h` field). -/
structure SShell where
  curve : List SCurve
  surface : List SSurface

namespace SShell

/-- Handle lookup in the shell's curve collection (the C++
`curve.FindById`). -/
def FindCurve (sh : SShell) (hsc : ℕ) : Option SCurve :=
  sh.curve.find? fun c => c.h == hsc

end SShell

namespace STrimBy

/-- Modelled from the spec: `STrimBy::EntireCurve` (`srf/surface.h:107`,
body absent); §4.3 "constructs a trim segment spanning an entire 3D curve in
the given direction", with the cached `start`/`finish` the actual start and
finish of the directed trim, per the comment of `srf/surface.h:101-103`: for
a backwards trim they appear in reverse order in the referenced curve.
A missing curve or an empty polyline is a malformed input (§7 precondition
violation), returning no value. -/
def EntireCurve (shell : SShell) (hsc : ℕ) (bkwds : Bool) : Option STrimBy :=
  match shell.FindCurve hsc with
  | none => none
  | some sc =>
    match sc.pts.head?, sc.pts.getLast? with
    | some first, some last =>
      some { curve := hsc
             backwards := bkwds
             start := if bkwds then last else first
             finish := if bkwds then first else last }
    | _, _ => none

end STrimBy

namespace SShell

/-- Modelled from the spec: the shared assembly step of the shell-producing
operations (§4.4, §4.5 step 4): the two input shells' curves and surfaces
are deep-copied into the result with freshly allocated handles (sequential
renumbering), each surface's trim-segment curve references remapped
consistently, and — per §4.5 step 3 for the difference — the second shell's
trim orientations flipped when `flipB`.  The classification-based dropping
of enclosed surfaces (§4.5 step 4) depends on tolerance thresholds that §9
leaves unspecified; the model keeps the remapped surfaces of both inputs. -/
def combineInto (a b : SShell) (flipB : Bool) : SShell :=
  let na := a.curve.length
  let remapA := fun h => (a.curve.findIdx? fun c => c.h == h).getD 0
  let remapB := fun h => na + (b.curve.findIdx? fun c => c.h == h).getD 0
  let curves := (a.curve ++ b.curve).enum.map
    fun (ic : ℕ × SCurve) => { ic.2 with h := ic.1 }
  let surfA := a.surface.map fun s =>
    { s with trim := s.trim.map fun st => { st with curve := remapA st.curve } }
  let surfB := b.surface.map fun s =>
    { s with trim := s.trim.map fun st =>
        { st with
          curve := remapB st.curve
          backwards := if flipB then !st.backwards else st.backwards } }
  let surfaces := (surfA ++ surfB).enum.map
    fun (is : ℕ × SSurface) => { is.2 with h := is.1 }
  { curve := curves, surface := surfaces }

/-- The empty shell. -/
def empty : SShell := ⟨[], []⟩

/-- Modelled from the spec: the pure combination computed by
`SShell::MakeFromUnionOf` (§4.5). -/
def unionOf (a b : SShell) : SShell := combineInto a b false

/-- Modelled from the spec: the pure combination computed by
`SShell::MakeFromDifferenceOf` (§4.5 step 3, the second operand's kept
segments reversed in orientation). -/
def differenceOf (a b : SShell) : SShell := combineInto a b true

/-- Modelled from the spec: the deep copy with consistent handle remapping
computed by `SShell::MakeFromCopyOf` (§4.4). -/
def copyOf (a : SShell) : SShell := combineInto a empty false

/-- Modelled from the spec: the deep copy with every curve and surface
rigidly transformed, computed by `SShell::MakeFromTransformationOf`
(§4.4). -/
def transformationOf (a : SShell) (t : Vector) (q : Quat) : SShell :=
  copyOf
    { curve := a.curve.map fun c => c.FromTransformationOf t q
      surface := a.surface.map fun s => s.FromTransformationOf t q true }

end SShell

/-- The heap of live shells, addressed by stable identities: the C++ object
store in which `this`, `a` and `b` of the `SShell::MakeFrom…` methods are
distinct slots.  Mutation of a shell object is embedded as replacement of
its slot. -/
structure ShellStore where
  shells : List (ℕ × SShell)

namespace ShellStore

/-- The shell currently stored at identity `h`. -/
def get? (st : ShellStore) (h : ℕ) : Option SShell :=
  (st.shells.find? fun e => e.1 == h).map (·.2)

/-- Overwrite the slot `h` with shell `s`. -/
def set (st : ShellStore) (h : ℕ) (s : SShell) : ShellStore :=
  ⟨(h, s) :: st.shells.filter fun e => !(e.1 == h)⟩

/-- Modelled from the spec: `void SShell::MakeFromUnionOf(SShell *a, SShell
*b)` (`srf/surface.h:147`, body absent): the receiver slot `dst` is rebuilt
as the union of the shells read from `ha` and `hb`; only the receiver slot
is written. -/
def MakeFromUnionOf (st : ShellStore) (dst ha hb : ℕ) : ShellStore :=
  match st.get? ha, st.get? hb with
  | some a, some b => st.set dst (SShell.unionOf a b)
  | _, _ => st

/-- Modelled from the spec: `void SShell::MakeFromDifferenceOf(SShell *a,
SShell *b)` (`srf/surface.h:148`, body absent). -/
def MakeFromDifferenceOf (st : ShellStore) (dst ha hb : ℕ) : ShellStore :=
  match st.get? ha, st.get? hb with
  | some a, some b => st.set dst (SShell.differenceOf a b)
  | _, _ => st

/-- Modelled from the spec: `void SShell::MakeFromCopyOf(SShell *a)`
(`srf/surface.h:149`, body absent). -/
def MakeFromCopyOf (st : ShellStore) (dst ha : ℕ) : ShellStore :=
  match st.get? ha with
  | some a => st.set dst (SShell.copyOf a)
  | none => st

/-- Modelled from the spec: `void SShell::MakeFromTransformationOf(SShell
*a, Vector trans, Quaternion q)` (`srf/surface.h:150`, body absent). -/
def MakeFromTransformationOf (st : ShellStore) (dst ha : ℕ) (t : Vector)
    (q : Quat) : ShellStore :=
  match st.get? ha with
  | some a => st.set dst (SShell.transformationOf a t q)
  | none => st

end ShellStore

/-- The `TextureCache` of `src/render/rendergl2.cpp:11-40`: the map from
pixmaps to GL texture ids.  The `std::map` keyed by
`std::weak_ptr<const Pixmap>` under `std::owner_less` is embedded as an
association list keyed by the pixmap's owner identity (a `ℕ`): a live
`shared_ptr` query compares equal to a stored `weak_ptr` key exactly when
the two share ownership, in which case the stored key is itself live.
`glGenTextures` is embedded as the fresh-id counter `nextId`; only the
freshness of the generated id is relevant. -/
structure TextureCache where
  items : List (ℕ × ℕ)
  nextId : ℕ

namespace TextureCache

/-- `TextureCache::Lookup` (`src/render/rendergl2.cpp:16-28`): find the
queried pixmap's entry; if present, write the stored id through the
out-parameter and return `true`; otherwise generate a fresh id, insert it
under the pixmap, write it and return `false`.  The result triple is
(returned `bool`, out-parameter `*result`, receiver's state after the
call). -/
def Lookup (c : TextureCache) (ptr : ℕ) : Bool × ℕ × TextureCache :=
  match c.items.find? fun e => e.1 == ptr with
  | some e => (true, e.2, c)
  | none => (false, c.nextId, ⟨(ptr, c.nextId) :: c.items, c.nextId + 1⟩)

end TextureCache

/-! ## Helper lemmas and sample data -/

/-- A concrete degree-1 curve (a unit segment along the x axis, unit
weights), used as the concrete input of several witnesses. -/
def sampleBez : SBezier :=
  { tag := 0
    deg := 1
    ctrl := fun i => ⟨(i.val : ℚ), 0, 0⟩
    weight := fun _ => 1 }

/-- Reversing the valid-slot index permutation twice is the identity, for
any degree admitted by the kernel's precondition. -/
theorem revIndex_invol (d : ℕ) (hd : d ≤ 3) (i : Fin 4) :
    SBezier.revIndex d (SBezier.revIndex d i) = i := by
  interval_cases d <;> revert i <;> decide

/-- Reversing a curve of admissible degree twice restores every field. -/
theorem reverse_reverse (b : SBezier) (hd3 : b.deg ≤ 3) :
    b.Reverse.Reverse = b := by
  obtain ⟨tag, deg, ctrl, weight⟩ := b
  simp only [SBezier.Reverse] at *
  congr 1 <;> funext i <;> rw [revIndex_invol deg hd3]


/-- A concrete degree-1 curve with unequal endpoint weights `1` and `3`
(same segment geometry as `sampleBez`, non-affine parametrization). -/
def sampleWeightedLine : SBezier :=
  { tag := 0
    deg := 1
    ctrl := fun i => ⟨if i.val = 0 then 0 else 1, 0, 0⟩
    weight := fun i => if i.val = 0 then 1 else 3 }

/-- A degree-1 curve with equal nonzero weights is evaluated affinely:
`PointAt t = (1−t)·ctrl[0] + t·ctrl[1]`. -/
theorem pointAt_deg1_affine (b : SBezier) (hdeg : b.deg = 1)
    (hw : b.weight 1 = b.weight 0) (hwpos : b.weight 0 ≠ 0) (t : ℚ) :
    b.PointAt t = ((b.ctrl 0).ScaledBy (1 - t)).Plus ((b.ctrl 1).ScaledBy t) := by
  obtain ⟨tag, deg, ctrl, weight⟩ := b
  simp only at hdeg hw hwpos ⊢
  subst hdeg
  simp only [SBezier.PointAt, SBezier.numerAt, SBezier.denomAt, SBezier.basisCoeff,
    Bernstein, Vector.Plus, Vector.ScaledBy,
    show ((0 : Fin 4) : ℕ) = 0 from rfl, show ((1 : Fin 4) : ℕ) = 1 from rfl,
    show ((2 : Fin 4) : ℕ) = 2 from rfl, show ((3 : Fin 4) : ℕ) = 3 from rfl, hw]
  norm_num
  have hden : weight 0 * (1 - t) + weight 0 * t = weight 0 := by ring
  simp only [hden]
  refine ⟨?_, ?_, ?_⟩ <;> (field_simp; ring)

/-! ## The claims -/

/-- C2: for every rational Bezier curve of degree 1–3 whose valid weights
are positive, `SBezier::PointAt(0)` is the first control point `ctrl[0]` and
`SBezier::PointAt(1)` is the last control point `ctrl[deg]`. -/
theorem c2_pointAt_endpoints (b : SBezier) (hd1 : 1 ≤ b.deg) (hd3 : b.deg ≤ 3)
    (hw : ∀ k : Fin 4, k.val ≤ b.deg → 0 < b.weight k) :
    b.PointAt 0 = b.ctrl 0 ∧ b.PointAt 1 = b.ctrl ⟨b.deg, by omega⟩ := by
  obtain ⟨tag, deg, ctrl, weight⟩ := b
  simp only at hd1 hd3 hw ⊢
  have hd : deg = 1 ∨ deg = 2 ∨ deg = 3 := by omega
  rcases hd with rfl | rfl | rfl
  · have hw0 : weight 0 ≠ 0 := ne_of_gt (hw 0 (by decide))
    have hw1 : weight 1 ≠ 0 := ne_of_gt (hw 1 (by decide))
    refine ⟨?_, ?_⟩ <;>
      (simp only [SBezier.PointAt, SBezier.numerAt, SBezier.denomAt,
        SBezier.basisCoeff, Bernstein, Vector.Plus, Vector.ScaledBy,
        show ((0 : Fin 4) : ℕ) = 0 from rfl,
        show ((1 : Fin 4) : ℕ) = 1 from rfl,
        show ((2 : Fin 4) : ℕ) = 2 from rfl,
        show ((3 : Fin 4) : ℕ) = 3 from rfl];
       norm_num;
       ext <;> field_simp <;> try rfl)
  · have hw0 : weight 0 ≠ 0 := ne_of_gt (hw 0 (by decide))
    have hw1 : weight 1 ≠ 0 := ne_of_gt (hw 1 (by decide))
    have hw2 : weight 2 ≠ 0 := ne_of_gt (hw 2 (by decide))
    refine ⟨?_, ?_⟩ <;>
      (simp only [SBezier.PointAt, SBezier.numerAt, SBezier.denomAt,
        SBezier.basisCoeff, Bernstein, Vector.Plus, Vector.ScaledBy,
        show ((0 : Fin 4) : ℕ) = 0 from rfl,
        show ((1 : Fin 4) : ℕ) = 1 from rfl,
        show ((2 : Fin 4) : ℕ) = 2 from rfl,
        show ((3 : Fin 4) : ℕ) = 3 from rfl];
       norm_num;
       ext <;> field_simp <;> try rfl)
  · have hw0 : weight 0 ≠ 0 := ne_of_gt (hw 0 (by decide))
    have hw1 : weight 1 ≠ 0 := ne_of_gt (hw 1 (by decide))
    have hw2 : weight 2 ≠ 0 := ne_of_gt (hw 2 (by decide))
    have hw3 : weight 3 ≠ 0 := ne_of_gt (hw 3 (by decide))
    refine ⟨?_, ?_⟩ <;>
      (simp only [SBezier.PointAt, SBezier.numerAt, SBezier.denomAt,
        SBezier.basisCoeff, Bernstein, Vector.Plus, Vector.ScaledBy,
        show ((0 : Fin 4) : ℕ) = 0 from rfl,
        show ((1 : Fin 4) : ℕ) = 1 from rfl,
        show ((2 : Fin 4) : ℕ) = 2 from rfl,
        show ((3 : Fin 4) : ℕ) = 3 from rfl];
       norm_num;
       ext <;> field_simp <;> try rfl)

/-- C2 witness: the endpoint property instantiated at the concrete unit
segment `sampleBez`. -/
theorem c2_pointAt_endpoints_witness :
    (1 ≤ sampleBez.deg ∧ sampleBez.deg ≤ 3
      ∧ ∀ k : Fin 4, k.val ≤ sampleBez.deg → 0 < sampleBez.weight k)
    ∧ sampleBez.PointAt 0 = sampleBez.ctrl 0
    ∧ sampleBez.PointAt 1 = sampleBez.ctrl 1 :=
  ⟨⟨by decide, by decide, by decide⟩,
   c2_pointAt_endpoints sampleBez (by decide) (by decide) (by decide)⟩

/-- C3: reversing a curve of degree 1–3 twice reproduces the original
control points, weights and degree exactly (every field of the receiver's
state is restored). -/
theorem c3_reverse_involution (b : SBezier) (hd1 : 1 ≤ b.deg)
    (hd3 : b.deg ≤ 3) : b.Reverse.Reverse = b :=
  reverse_reverse b hd3

/-- C3 witness: the double reversal instantiated at the concrete unit
segment `sampleBez`. -/
theorem c3_reverse_involution_witness :
    (1 ≤ sampleBez.deg ∧ sampleBez.deg ≤ 3)
    ∧ sampleBez.Reverse.Reverse = sampleBez :=
  ⟨⟨by decide, by decide⟩,
   c3_reverse_involution sampleBez (by decide) (by decide)⟩

/-- C4 counterexample: `SBezier::Reverse` is declared `void`
(`srf/surface.h:37`) and reverses the receiver in place, so the curve it is
applied to does not keep its control points: on the concrete unit segment
`sampleBez`, `ctrl[0]` differs after the call. -/
theorem c4_counterexample : sampleBez.Reverse.ctrl 0 ≠ sampleBez.ctrl 0 := by
  decide

/-- C4 amended: `TransformedBy` and polyline flattening leave the curve
they are applied to unchanged and deliver their result as a new value (the
returned curve, the out-list); `Reverse`, being an in-place `void` method,
replaces the receiver by the reversed curve rather than leaving it
unchanged, and applying it twice restores the original. -/
theorem c4_derivations_frame (b : SBezier) (t : Vector) (q : Quat)
    (tolSq : ℚ) (fuel : ℕ) (l : List Vector) (hd3 : b.deg ≤ 3) :
    (b.transformedByCall t q).1 = b
    ∧ (b.makePwlIntoCall tolSq fuel l).1 = b
    ∧ b.Reverse.Reverse = b :=
  ⟨rfl, rfl, reverse_reverse b hd3⟩

/-- C4 witness: the amended frame property instantiated at the concrete
unit segment `sampleBez`. -/
theorem c4_derivations_frame_witness :
    sampleBez.deg ≤ 3
    ∧ ((sampleBez.transformedByCall ⟨0, 0, 0⟩ ⟨1, 0, 0, 0⟩).1 = sampleBez
      ∧ (sampleBez.makePwlIntoCall 1 0 []).1 = sampleBez
      ∧ sampleBez.Reverse.Reverse = sampleBez) :=
  ⟨by decide,
   c4_derivations_frame sampleBez ⟨0, 0, 0⟩ ⟨1, 0, 0, 0⟩ 1 0 [] (by decide)⟩

/-- C5 counterexample: under the spec's chord-error test (midpoint of the
chord against the true curve point at the parameter midpoint), the concrete
degree-1 curve `sampleWeightedLine` (weights `1` and `3`) flattened at
squared tolerance `1/100` yields four points, not two: its rational
parametrization is not affine, so the midpoint test fails and the interval
is subdivided. -/
theorem c5_counterexample :
    (sampleWeightedLine.MakePwlInto (1 / 100) 3 []).length ≠ 2 := by
  norm_num [SBezier.MakePwlInto, SBezier.MakePwlWorker, SBezier.PointAt,
    SBezier.numerAt, SBezier.denomAt, SBezier.basisCoeff, Bernstein,
    Vector.Plus, Vector.Minus, Vector.ScaledBy, Vector.MagSquared,
    SBezier.Start, sampleWeightedLine,
    show ((0 : Fin 4) : ℕ) = 0 from rfl, show ((1 : Fin 4) : ℕ) = 1 from rfl,
    show ((2 : Fin 4) : ℕ) = 2 from rfl, show ((3 : Fin 4) : ℕ) = 3 from rfl]

/-- C5 amended: for every degree-1 curve whose two weights are equal (and
positive) — in particular every polynomial straight line — and every
positive flatness tolerance, `MakePwlInto` appends exactly two points to
the output list: the curve's start point and its finish point, with no
intermediate subdivision. -/
theorem c5_line_two_points (b : SBezier) (tolSq : ℚ) (fuel : ℕ)
    (l : List Vector) (hdeg : b.deg = 1) (hw : b.weight 1 = b.weight 0)
    (hwpos : 0 < b.weight 0) (htol : 0 < tolSq) (hfuel : 1 ≤ fuel) :
    b.MakePwlInto tolSq fuel l = l ++ [b.Start, b.Finish] := by
  obtain ⟨n, rfl⟩ : ∃ n, fuel = n + 1 := ⟨fuel - 1, by omega⟩
  have hPA := pointAt_deg1_affine b hdeg hw (ne_of_gt hwpos)
  simp only [SBezier.MakePwlInto, SBezier.MakePwlWorker]
  split
  · simp only [hPA, SBezier.Start, SBezier.Finish, hdeg, List.append_assoc,
      List.singleton_append]
    congr 2
    ext <;> simp [Vector.Plus, Vector.ScaledBy]
  · next h =>
    exfalso
    apply h
    simp only [hPA, Vector.Plus, Vector.ScaledBy, Vector.Minus, Vector.MagSquared]
    ring_nf
    norm_num [htol]

/-- C5 witness: the two-point flattening instantiated at the concrete unit
segment `sampleBez`, squared tolerance `1`, fuel `1`, empty output list. -/
theorem c5_line_two_points_witness :
    (sampleBez.deg = 1 ∧ sampleBez.weight 1 = sampleBez.weight 0
      ∧ 0 < sampleBez.weight 0 ∧ 0 < (1 : ℚ) ∧ 1 ≤ 1)
    ∧ sampleBez.MakePwlInto 1 1 [] = [] ++ [sampleBez.Start, sampleBez.Finish] :=
  ⟨⟨rfl, rfl, by norm_num [sampleBez], by norm_num, le_refl 1⟩,
   c5_line_two_points sampleBez 1 1 [] rfl rfl (by norm_num [sampleBez])
     (by norm_num) (le_refl 1)⟩


/-- A concrete curve violating the degree precondition (`deg = 4`). -/
def sampleHighDeg : SBezier :=
  { tag := 0
    deg := 4
    ctrl := fun _ => ⟨0, 0, 0⟩
    weight := fun _ => 1 }

/-- C7: curve evaluation requires degree `0 ≤ d ≤ 3`; for `d > 3` the guarded
evaluation aborts and returns no value, and under the precondition `d ≤ 3`
no error branch is reachable — every loop index into the 4-element
`ctrl`/`weight` arrays is in bounds. -/
theorem c7_degree_precondition (b : SBezier) (t : ℚ) :
    (b.deg ≤ 3 →
      b.PointAtChecked t = some (b.PointAt t)
      ∧ ∀ k ∈ Finset.range (b.deg + 1), k < 4)
    ∧ (3 < b.deg → b.PointAtChecked t = none) := by
  constructor
  · intro h
    refine ⟨by simp [SBezier.PointAtChecked, h], ?_⟩
    intro k hk
    simp only [Finset.mem_range] at hk
    omega
  · intro h
    simp [SBezier.PointAtChecked, show ¬b.deg ≤ 3 by omega]

/-- C7 witness: the guarded evaluation at the admissible `sampleBez`
(degree 1) and at the inadmissible `sampleHighDeg` (degree 4). -/
theorem c7_degree_precondition_witness :
    (sampleBez.deg ≤ 3
      ∧ sampleBez.PointAtChecked 0 = some (sampleBez.PointAt 0)
      ∧ ∀ k ∈ Finset.range (sampleBez.deg + 1), k < 4)
    ∧ (3 < sampleHighDeg.deg ∧ sampleHighDeg.PointAtChecked 0 = none) :=
  ⟨⟨by decide, (c7_degree_precondition sampleBez 0).1 (by decide)⟩,
   ⟨by decide, (c7_degree_precondition sampleHighDeg 0).2 (by decide)⟩⟩

/-- Searching for a key distinct from `h` is unaffected by filtering out
the entries with key `h`. -/
theorem find?_filter_of_ne (l : List (ℕ × SShell)) (h h' : ℕ)
    (hne : h' ≠ h) :
    (l.filter fun e => !(e.1 == h)).find? (fun e => e.1 == h')
      = l.find? (fun e => e.1 == h') := by
  induction l with
  | nil => rfl
  | cons a l ih =>
    rcases eq_or_ne a.1 h with hah | hah
    · rw [List.filter_cons_of_neg (by simp [hah]),
        List.find?_cons_of_neg l (by simp [hah, Ne.symm hne]), ih]
    · rw [List.filter_cons_of_pos (by simp [hah])]
      rcases eq_or_ne a.1 h' with hah' | hah'
      · rw [List.find?_cons_of_pos _ (by simp [hah']),
          List.find?_cons_of_pos _ (by simp [hah'])]
      · rw [List.find?_cons_of_neg _ (by simp [hah']),
          List.find?_cons_of_neg _ (by simp [hah']), ih]

/-- Writing one slot of the shell store leaves every other slot as it was. -/
theorem ShellStore.get?_set_ne (st : ShellStore) (h h' : ℕ) (s : SShell)
    (hne : h' ≠ h) : (st.set h s).get? h' = st.get? h' := by
  unfold ShellStore.set ShellStore.get?
  rw [List.find?_cons_of_neg _ (by simpa using Ne.symm hne),
    find?_filter_of_ne st.shells h h' hne]

/-- A concrete store holding two (empty) shells at slots `0` and `1`. -/
def sampleStore : ShellStore :=
  ⟨[(0, SShell.empty), (1, SShell.empty)]⟩

/-- C1: the shell-producing operations `MakeFromUnionOf`,
`MakeFromDifferenceOf`, `MakeFromCopyOf` and `MakeFromTransformationOf`
write only the receiver slot of the store: every other slot — in particular
the slots of the input shells `a` and `b`, which are objects distinct from
the receiver — holds exactly the shell it held before the call. -/
theorem c1_shell_ops_frame (st : ShellStore) (dst ha hb h' : ℕ) (t : Vector)
    (q : Quat) (hne : h' ≠ dst) :
    (st.MakeFromUnionOf dst ha hb).get? h' = st.get? h'
    ∧ (st.MakeFromDifferenceOf dst ha hb).get? h' = st.get? h'
    ∧ (st.MakeFromCopyOf dst ha).get? h' = st.get? h'
    ∧ (st.MakeFromTransformationOf dst ha t q).get? h' = st.get? h' := by
  refine ⟨?_, ?_, ?_, ?_⟩
  · unfold ShellStore.MakeFromUnionOf
    cases hA : st.get? ha <;> cases hB : st.get? hb <;>
      simp [ShellStore.get?_set_ne st dst h' _ hne]
  · unfold ShellStore.MakeFromDifferenceOf
    cases hA : st.get? ha <;> cases hB : st.get? hb <;>
      simp [ShellStore.get?_set_ne st dst h' _ hne]
  · unfold ShellStore.MakeFromCopyOf
    cases hA : st.get? ha <;>
      simp [ShellStore.get?_set_ne st dst h' _ hne]
  · unfold ShellStore.MakeFromTransformationOf
    cases hA : st.get? ha <;>
      simp [ShellStore.get?_set_ne st dst h' _ hne]

/-- C1 witness: the frame property instantiated at the concrete store
`sampleStore`, destination slot `2`, inputs at slots `0` and `1`, observed
slot `0`. -/
theorem c1_shell_ops_frame_witness :
    ((0 : ℕ) ≠ 2)
    ∧ ((sampleStore.MakeFromUnionOf 2 0 1).get? 0 = sampleStore.get? 0
      ∧ (sampleStore.MakeFromDifferenceOf 2 0 1).get? 0 = sampleStore.get? 0
      ∧ (sampleStore.MakeFromCopyOf 2 0).get? 0 = sampleStore.get? 0
      ∧ (sampleStore.MakeFromTransformationOf 2 0 ⟨0, 0, 0⟩ ⟨1, 0, 0, 0⟩).get? 0
          = sampleStore.get? 0) :=
  ⟨by decide,
   c1_shell_ops_frame sampleStore 2 0 1 0 ⟨0, 0, 0⟩ ⟨1, 0, 0, 0⟩ (by decide)⟩

/-- Every iteration of the closest-point refinement yields `Except.ok`:
convergence returns the refined parameters, exhaustion the best-effort
iterate. -/
theorem closestPointIter_ok (s : SSurface) (p : Vector) (tolSq : ℚ) :
    ∀ (fuel : ℕ) (u v : ℚ),
      ∃ uv, s.closestPointIter p tolSq fuel u v = Except.ok uv := by
  intro fuel
  induction fuel with
  | zero => exact fun u v => ⟨(u, v), rfl⟩
  | succ n ih =>
    intro u v
    simp only [SSurface.closestPointIter]
    split
    · exact ⟨_, rfl⟩
    · exact ih _ _

/-- C8: `SSurface::ClosestPointTo` never fails — for every surface, query
point, tolerance and iteration budget it writes a `(u,v)` result through
its out-parameters (`Except.ok`); non-convergence yields the best-effort
iterate, and the operation's failure channel is never used. -/
theorem c8_closest_point_total (s : SSurface) (p : Vector) (tolSq : ℚ)
    (fuel : ℕ) : ∃ uv, s.ClosestPointTo p tolSq fuel = Except.ok uv := by
  unfold SSurface.ClosestPointTo
  exact closestPointIter_ok s p tolSq fuel _ _

/-- A concrete two-point trim curve at handle `7`. -/
def sampleCurve : SCurve :=
  { h := 7
    isExact := false
    exact := sampleBez
    pts := [⟨0, 0, 0⟩, ⟨1, 0, 0⟩] }

/-- A concrete shell owning only `sampleCurve`. -/
def sampleShell : SShell := { curve := [sampleCurve], surface := [] }

/-- The trim segment `EntireCurve` builds over `sampleCurve` backwards. -/
def sampleTrim : STrimBy :=
  { curve := 7
    backwards := true
    start := ⟨1, 0, 0⟩
    finish := ⟨0, 0, 0⟩ }

/-- C9: a trim segment built by `STrimBy::EntireCurve` caches the actual
start and finish of the directed trim regardless of the `backwards` flag:
forwards, `start` is the referenced curve's first stored point and `finish`
its last; backwards, they appear in reverse order along the curve's stored
parametrization (`start` is the last stored point, `finish` the first). -/
theorem c9_trim_endpoints (shell : SShell) (hsc : ℕ) (bkwds : Bool)
    (stb : STrimBy) (sc : SCurve) (hfind : shell.FindCurve hsc = some sc)
    (hmk : STrimBy.EntireCurve shell hsc bkwds = some stb) :
    stb.backwards = bkwds
    ∧ (stb.backwards = false →
        sc.pts.head? = some stb.start ∧ sc.pts.getLast? = some stb.finish)
    ∧ (stb.backwards = true →
        sc.pts.head? = some stb.finish ∧ sc.pts.getLast? = some stb.start) := by
  unfold STrimBy.EntireCurve at hmk
  simp only [hfind] at hmk
  rcases hh : sc.pts.head? with _ | first <;>
    rcases hl : sc.pts.getLast? with _ | last <;>
      simp only [hh, hl] at hmk <;>
      try exact Option.noConfusion hmk
  simp only [Option.some.injEq] at hmk
  subst hmk
  cases bkwds <;> simp

/-- C9 witness: the cached-endpoint invariant at the concrete backwards
trim `sampleTrim` over `sampleCurve` in `sampleShell`. -/
theorem c9_trim_endpoints_witness :
    (sampleShell.FindCurve 7 = some sampleCurve
      ∧ STrimBy.EntireCurve sampleShell 7 true = some sampleTrim)
    ∧ (sampleTrim.backwards = true
      ∧ (sampleTrim.backwards = false →
          sampleCurve.pts.head? = some sampleTrim.start
          ∧ sampleCurve.pts.getLast? = some sampleTrim.finish)
      ∧ (sampleTrim.backwards = true →
          sampleCurve.pts.head? = some sampleTrim.finish
          ∧ sampleCurve.pts.getLast? = some sampleTrim.start)) :=
  ⟨⟨rfl, rfl⟩, c9_trim_endpoints sampleShell 7 true sampleTrim sampleCurve rfl rfl⟩

/-- C10: `TextureCache::Lookup` returns `true` and writes the stored id
exactly when the queried pixmap already has a (live) entry, leaving the
cache unchanged; otherwise it writes the freshly generated id, inserts it
under the pixmap, and returns `false` — whence the second of two
consecutive lookups of the same pixmap returns `true`, writes the same id
as the first, and leaves the cache as the first left it. -/
theorem c10_texture_cache_lookup (c : TextureCache) (k : ℕ) :
    (c.Lookup k).1 = (c.items.find? fun e => e.1 == k).isSome
    ∧ ((c.Lookup k).2.2.items.find? fun e => e.1 == k)
        = some (k, (c.Lookup k).2.1)
    ∧ (c.Lookup k).2.2.Lookup k
        = (true, (c.Lookup k).2.1, (c.Lookup k).2.2) := by
  rcases hfind : c.items.find? (fun e => e.1 == k) with _ | e
  · have hL : c.Lookup k
        = (false, c.nextId, ⟨(k, c.nextId) :: c.items, c.nextId + 1⟩) := by
      unfold TextureCache.Lookup
      rw [hfind]
    rw [hL]
    refine ⟨by simp [hfind], ?_, ?_⟩
    · simp [List.find?_cons]
    · unfold TextureCache.Lookup
      simp [List.find?_cons]
  · have he : e.1 = k := by
      simpa using List.find?_some hfind
    have hL : c.Lookup k = (true, e.2, c) := by
      unfold TextureCache.Lookup
      rw [hfind]
    rw [hL]
    refine ⟨by simp [hfind], ?_, hL⟩
    · rw [hfind, ← he]

end SolveSpaceImport
